import Mathlib

/-!
Shallow embedding of the teleport job-worker repository
(`src/pkg/job_manager/job_manager.go` and the registry part of
`src/cmd/client/main.go`).

Modelling conventions:
* `JobStatus` mirrors the four Go status constants.
* A `Log` is its `Lines` slice, a `List String`; `AppendLine` is the
  source's append under the log mutex.
* `LogReader.ReadNextLine` is embedded twice, faithfully to the source's
  two control paths:
  - `ReadNextLine blocking trace fuel t pos` models the full function,
    poll loop included.  `trace t` is the log's `Lines` snapshot observed
    at the `t`-th poll (the `time.Sleep(10ms)` between polls advances
    `t`); `fuel` bounds how many polls we observe, and a result of
    `none` means the call is still parked in the wait loop after `fuel`
    polls.  The source function has no other way out of the loop: there
    is no cancellation input, matching the Go signature
    `ReadNextLine(blocking bool)`.
  - `readNextLineNB` is the same function on a fixed snapshot when the
    loop body never runs (non-blocking call, or any call finding
    `CurrentPosition < len(log.Lines)`), returning
    (line, ok, new position).
* `Job.Status` updates (`StartJob`, `Stop`, `_monitorCompletion`,
  `GetStatus`) are embedded as pure state transformers; the success of
  `cmd.StdoutPipe` / `cmd.StderrPipe` / `cmd.Start` / `Process.Signal`
  is an explicit boolean input, and `cmd.Wait`'s error outcome likewise.
* The interleaved executions that the claims about logs and cursors
  quantify over ("any sequence of append and read operations") are the
  runs of `applyOp` over `SysState`: one job's log plus any number of
  readers created by `NewLogReader`, each operation executing under the
  log's mutex exactly as in the source.
* The job registry of `src/cmd/client/main.go` (a Go map guarded by a
  mutex) is a function `String → Option Job`; `register` is the map
  insert done by `StartJob` there, `GetJob` the lookup.
-/

namespace JobWorker

/-- The four `JobStatus` constants of job_manager.go lines 17-22. -/
inductive JobStatus where
  | running
  | completed
  | failed
  | terminated
deriving DecidableEq

/-- A `Job`'s state as far as status logic is concerned: its `Status`
field and its `Log`'s lines (job_manager.go lines 78-83). -/
structure Job where
  status : JobStatus
  logLines : List String
deriving DecidableEq

/-- `Log.AppendLine` (job_manager.go lines 36-40): under the log mutex,
`log.Lines = append(log.Lines, line)`. -/
def AppendLine (lines : List String) (line : String) : List String :=
  lines ++ [line]

/-- `LogReader.ReadNextLine` (job_manager.go lines 49-74), poll loop
included.  The loop breaks when `!blocking || CurrentPosition <
len(log.Lines)`; otherwise it unlocks, sleeps 10 ms and re-reads the
log, which the embedding renders as advancing to the next snapshot
`trace (t+1)` with one unit of `fuel` spent.  After the break the
source returns `("", false)` when `CurrentPosition >= len(log.Lines)`
and otherwise returns `log.Lines[CurrentPosition]` and increments the
position.  `none` means the call has not returned within `fuel` polls;
the source offers no cancellation path out of the loop. -/
def ReadNextLine (blocking : Bool) (trace : Nat → List String)
    (fuel t pos : Nat) : Option (String × Bool × Nat) :=
  if blocking = false ∨ pos < (trace t).length then
    if h : pos < (trace t).length then
      some ((trace t).get ⟨pos, h⟩, true, pos + 1)
    else
      some ("", false, pos)
  else
    match fuel with
    | 0 => none
    | fuel' + 1 => ReadNextLine blocking trace fuel' (t + 1) pos
termination_by fuel

/-- The loop-free path of `ReadNextLine` over one fixed log snapshot
(job_manager.go lines 67-73, reached immediately on a non-blocking call
or whenever `CurrentPosition < len(log.Lines)`): the line read (`""` on
the empty read), the `ok` flag, and the reader's new
`CurrentPosition`. -/
def readNextLineNB (lines : List String) (pos : Nat) : String × Bool × Nat :=
  if h : pos < lines.length then
    (lines.get ⟨pos, h⟩, true, pos + 1)
  else
    ("", false, pos)

/-- `Job.ReadAllLines`'s loop (job_manager.go lines 179-190): starting
from a fresh reader's position, repeatedly call the non-blocking
`ReadNextLine` and collect lines until `ok` is false. -/
def readAllFrom (lines : List String) (pos : Nat) : List String :=
  let r := readNextLineNB lines pos
  if h : r.2.1 = true then
    r.1 :: readAllFrom lines r.2.2
  else
    []
termination_by lines.length - pos
decreasing_by
  by_cases h2 : pos < lines.length
  · simp only [readNextLineNB, dif_pos h2]
    omega
  · unfold r at h
    simp [readNextLineNB, h2] at h

/-- `Job.ReadAllLines` (job_manager.go lines 179-190): a fresh
`NewLogReader` starts at position 0. -/
def ReadAllLines (lines : List String) : List String :=
  readAllFrom lines 0

/-- The server's `GetOutput` handler (main.go lines 250-263): flattens
`ReadAllLines` into one byte string by appending each line in order. -/
def GetOutput (lines : List String) : String :=
  String.join (ReadAllLines lines)

/-- `Job.GetStatus` (job_manager.go lines 166-170). -/
def GetStatus (job : Job) : JobStatus :=
  job.status

/-- The two error outcomes of `Job.Stop` (job_manager.go lines
150-164): the "job is not running or has already completed" error, and
the error returned when `Cmd.Process.Signal(os.Interrupt)` fails. -/
inductive StopErr where
  | notRunningError
  | signalError
deriving DecidableEq

/-- `Job.Stop` (job_manager.go lines 150-164), under the job mutex.
`signalDelivered` is whether `Cmd.Process.Signal(os.Interrupt)`
succeeds.  The returned pair is (error, job state after the call); an
early return leaves the job unchanged. -/
def Stop (signalDelivered : Bool) (job : Job) : Option StopErr × Job :=
  if job.status ≠ JobStatus.running then
    (some StopErr.notRunningError, job)
  else if signalDelivered = false then
    (some StopErr.signalError, job)
  else
    (none, { job with status := JobStatus.terminated })

/-- `StartJob` (job_manager.go lines 85-111).  The three booleans are
the success of `cmd.StdoutPipe()`, `cmd.StderrPipe()` and
`cmd.Start()`; each failure returns the error and no job.  On success
the returned job carries `Status: StatusRunning` and a fresh empty
log. -/
def StartJob (stdoutPipeOk stderrPipeOk startOk : Bool) : Option Job :=
  if stdoutPipeOk = false then
    none
  else if stderrPipeOk = false then
    none
  else
    let job : Job := { status := JobStatus.running, logLines := [] }
    if startOk = false then
      none
    else
      some job

/-- `Job._monitorCompletion`'s status update (job_manager.go lines
137-148): after `Cmd.Wait()` returns, under the job mutex, the status
is set to `StatusFailed` when `Wait` returned an error and to
`StatusCompleted` otherwise.  The source writes the status
unconditionally: it does not inspect the current status first. -/
def monitorCompletion (waitErr : Bool) (job : Job) : Job :=
  if waitErr = true then
    { job with status := JobStatus.failed }
  else
    { job with status := JobStatus.completed }

/-- One job's log together with the `CurrentPosition` of every
`LogReader` created over it (job_manager.go lines 26-29 and 44-47).
`cursors.get i` is reader `i`'s `CurrentPosition`. -/
structure SysState where
  lines : List String
  cursors : List Nat
deriving DecidableEq

/-- The operations that touch a log or its readers, each executing
under the log's mutex as in the source: the capture task's
`AppendLine`, `Job.NewLogReader` (job_manager.go lines 172-177, a fresh
reader with `CurrentPosition: 0`), and a reader's `ReadNextLine` on the
snapshot it observes (the loop-free path `readNextLineNB`; a blocking
call that returns takes the identical path). -/
inductive Op where
  | appendLine (s : String)
  | newLogReader
  | readNextLineOp (c : Nat)

/-- Effect of one operation: the new state, and for a read the event
`(reader, line, ok)` it returns. -/
def applyOp (σ : SysState) : Op → SysState × Option (Nat × String × Bool)
  | Op.appendLine s => ({ σ with lines := AppendLine σ.lines s }, none)
  | Op.newLogReader => ({ σ with cursors := σ.cursors ++ [0] }, none)
  | Op.readNextLineOp c =>
    match σ.cursors[c]? with
    | none => (σ, none)
    | some pos =>
      let r := readNextLineNB σ.lines pos
      ({ σ with cursors := σ.cursors.set c r.2.2 }, some (c, r.1, r.2.1))

/-- Run a sequence of operations, collecting the read events in
order. -/
def run (σ : SysState) : List Op → SysState × List (Nat × String × Bool)
  | [] => (σ, [])
  | op :: ops =>
    ((run (applyOp σ op).1 ops).1,
     (applyOp σ op).2.toList ++ (run (applyOp σ op).1 ops).2)

/-- The lines reader `c` has successfully read, in order, among the
events `evs`. -/
def readsOf (c : Nat) (evs : List (Nat × String × Bool)) : List String :=
  (evs.filter (fun e => e.1 == c && e.2.2)).map (fun e => e.2.1)

/-- The job registry of main.go lines 180-187: the Go map
`jobs map[string]*job.Job`, embedded as a function. -/
def emptyJobStore : String → Option Job :=
  fun _ => none

/-- The map insert `jobStore.jobs[id] = j` done by the server's
`StartJob` (main.go lines 189-199) under the registry mutex; the id is
a fresh `uuid.New().String()`. -/
def register (jobs : String → Option Job) (id : String) (j : Job) :
    String → Option Job :=
  fun k => if k = id then some j else jobs k

/-- The registry contents after a sequence of registrations, oldest
first, starting from the empty store. -/
def buildJobStore (regs : List (String × Job)) : String → Option Job :=
  regs.foldl (fun jobs e => register jobs e.1 e.2) emptyJobStore

/-- `GetJob` (main.go lines 201-210): map lookup under a read lock;
"job not found" when the id is absent. -/
inductive LookupErr where
  | notFoundError
deriving DecidableEq

/-- `GetJob` (main.go lines 201-210). -/
def GetJob (jobs : String → Option Job) (id : String) : Except LookupErr Job :=
  match jobs id with
  | some j => Except.ok j
  | none => Except.error LookupErr.notFoundError

/-! ### Lemmas about `ReadNextLine` -/

/-- The ready path: a position strictly below the snapshot's length
breaks the wait loop on the very first check, whatever the blocking
flag, and returns the stored line while advancing by one. -/
theorem readNextLine_break (blocking : Bool) (trace : Nat → List String)
    (fuel t pos : Nat) (h : pos < (trace t).length) :
    ReadNextLine blocking trace fuel t pos =
      some ((trace t).get ⟨pos, h⟩, true, pos + 1) := by
  rw [ReadNextLine.eq_def, if_pos (Or.inr h), dif_pos h]

/-- The empty non-blocking path: the loop breaks at once and the read
reports no data. -/
theorem readNextLine_nb_empty (trace : Nat → List String)
    (fuel t pos : Nat) (h : (trace t).length ≤ pos) :
    ReadNextLine false trace fuel t pos = some ("", false, pos) := by
  rw [ReadNextLine.eq_def, if_pos (Or.inl rfl), dif_neg (by omega)]

/-- A blocking read over a log that never grows past the reader's
position stays in the poll loop forever: no number of polls returns. -/
theorem readNextLine_blocked (lines : List String) (fuel : Nat) :
    ∀ (t pos : Nat), lines.length ≤ pos →
      ReadNextLine true (fun _ => lines) fuel t pos = none := by
  induction fuel with
  | zero =>
    intro t pos h
    rw [ReadNextLine.eq_def, if_neg (by simp; omega)]
  | succ fuel ih =>
    intro t pos h
    rw [ReadNextLine.eq_def, if_neg (by simp; omega)]
    exact ih (t + 1) pos h

/-- Claim C2: if the cursor's position is strictly below the log's
length, `ReadNextLine` returns the line stored there, advances the
position by exactly one and reports `ok = true`, for either value of
the blocking flag and without blocking (the result needs zero polls:
it holds already at `fuel = 0`); if the position equals the length and
the call is non-blocking, it returns `ok = false` immediately (again
at `fuel = 0`). -/
theorem readNextLine_ready_and_empty (blocking : Bool)
    (trace : Nat → List String) (fuel t pos : Nat) :
    (∀ h : pos < (trace t).length,
        ReadNextLine blocking trace fuel t pos =
          some ((trace t).get ⟨pos, h⟩, true, pos + 1)) ∧
    (pos = (trace t).length →
        ReadNextLine false trace fuel t pos = some ("", false, pos)) := by
  constructor
  · intro h
    exact readNextLine_break blocking trace fuel t pos h
  · intro h
    exact readNextLine_nb_empty trace fuel t pos (le_of_eq h.symm)

/-- Witness for C2 at a concrete log. -/
theorem readNextLine_ready_and_empty_witness :
    ReadNextLine true (fun _ => ["a", "b"]) 0 0 1 = some ("b", true, 2) ∧
    ReadNextLine false (fun _ => ["a", "b"]) 0 0 2 = some ("", false, 2) :=
  ⟨(readNextLine_ready_and_empty true (fun _ => ["a", "b"]) 0 0 1).1 (by simp),
   (readNextLine_ready_and_empty false (fun _ => ["a", "b"]) 0 0 2).2 (by simp)⟩

/-- Claim C4 (refuted by the code): the "blocking wait" of
job_manager.go lines 57-65 is a fixed-interval poll loop (re-check,
unlock, `time.Sleep(10ms)`, relock) whose only exit is observing
`CurrentPosition < len(log.Lines)`.  The function's signature,
`ReadNextLine(blocking bool)`, offers no cancellation input at all, so
the embedding has none either: with the log never growing past the
reader's position, the call has not returned after any number of
polls.  A client disconnect cannot release the parked reader, and the
reader keeps burning a poll every 10 ms while parked. -/
theorem blocking_read_uncancelable (fuel : Nat) :
    ReadNextLine true (fun _ => []) fuel 0 0 = none :=
  readNextLine_blocked [] fuel 0 0 (by simp)

/-! ### Job lifecycle theorems -/

/-- Claim C1 (refuted by the code): `_monitorCompletion`
(job_manager.go lines 137-148) writes `StatusFailed` or
`StatusCompleted` unconditionally once `Cmd.Wait()` returns.  It never
observes the current status first, so a job already moved to
`StatusTerminated` by `Stop` is overwritten when the process exit is
reaped: the status changes a second time out of a terminal state,
violating the claimed invariant. -/
theorem monitorCompletion_overwrites_terminated :
    (monitorCompletion true (Job.mk JobStatus.terminated [])).status
      = JobStatus.failed ∧
    (monitorCompletion false (Job.mk JobStatus.terminated [])).status
      = JobStatus.completed ∧
    JobStatus.failed ≠ JobStatus.terminated :=
  ⟨rfl, rfl, by decide⟩

/-- Claim C3: `Stop` on a non-running job fails with the not-running
error and changes nothing; `Stop` on a running job whose signal cannot
be delivered fails with the signal error and leaves the status
`Running`; otherwise it marks the job `Terminated`. -/
theorem stop_cases (signalDelivered : Bool) (job : Job) :
    (job.status ≠ JobStatus.running →
        Stop signalDelivered job = (some StopErr.notRunningError, job)) ∧
    (job.status = JobStatus.running → signalDelivered = false →
        Stop signalDelivered job = (some StopErr.signalError, job)) ∧
    (job.status = JobStatus.running → signalDelivered = true →
        Stop signalDelivered job =
          (none, { job with status := JobStatus.terminated })) := by
  refine ⟨fun h => ?_, fun h hs => ?_, fun h hs => ?_⟩
  · simp [Stop, h]
  · simp [Stop, h, hs]
  · simp [Stop, h, hs]

/-- Witness for C3 at concrete jobs. -/
theorem stop_cases_witness :
    Stop true (Job.mk JobStatus.running []) =
      (none, Job.mk JobStatus.terminated []) ∧
    Stop true (Job.mk JobStatus.completed []) =
      (some StopErr.notRunningError, Job.mk JobStatus.completed []) ∧
    Stop false (Job.mk JobStatus.running []) =
      (some StopErr.signalError, Job.mk JobStatus.running []) :=
  ⟨(stop_cases true (Job.mk JobStatus.running [])).2.2 rfl rfl,
   (stop_cases true (Job.mk JobStatus.completed [])).1 (by decide),
   (stop_cases false (Job.mk JobStatus.running [])).2.1 rfl rfl⟩

/-- Claim C7: `StartJob` fails (returning no job) exactly when one of
the three launch steps fails — the stdout pipe, the stderr pipe, or
`cmd.Start()` itself — and any job it does return reports status
`Running` to `GetStatus`. -/
theorem startJob_spawn (a b c : Bool) :
    (StartJob a b c = none ↔ (a = false ∨ b = false ∨ c = false)) ∧
    (∀ j, StartJob a b c = some j → GetStatus j = JobStatus.running) := by
  constructor
  · cases a <;> cases b <;> cases c <;> simp [StartJob]
  · intro j hj
    have habc : a = true ∧ b = true ∧ c = true := by
      cases a <;> cases b <;> cases c <;> simp_all [StartJob]
    obtain ⟨ha, hb, hc⟩ := habc
    subst ha; subst hb; subst hc
    simp only [StartJob, Bool.true_eq_false, if_false, Option.some.injEq] at hj
    subst hj
    rfl

/-- Witness for C7: a failing spawn, and a successful one observed
`Running`. -/
theorem startJob_spawn_witness :
    StartJob false true true = none ∧
    GetStatus (Job.mk JobStatus.running []) = JobStatus.running :=
  ⟨(startJob_spawn false true true).1.mpr (Or.inl rfl),
   (startJob_spawn true true true).2 (Job.mk JobStatus.running []) rfl⟩

/-! ### `ReadAllLines` and `GetOutput` -/

/-- The `ReadAllLines` loop started at position `pos` collects exactly
the lines from `pos` on. -/
theorem readAllFrom_eq (lines : List String) :
    ∀ (n pos : Nat), lines.length - pos ≤ n →
      readAllFrom lines pos = lines.drop pos := by
  intro n
  induction n with
  | zero =>
    intro pos hp
    have hge : lines.length ≤ pos := by omega
    rw [readAllFrom]
    simp [readNextLineNB, Nat.not_lt.mpr hge, List.drop_eq_nil_of_le hge]
  | succ n ih =>
    intro pos hp
    by_cases h2 : pos < lines.length
    · rw [readAllFrom]
      simp only [readNextLineNB, dif_pos h2]
      rw [ih (pos + 1) (by omega)]
      exact (List.drop_eq_getElem_cons h2).symm
    · have hge : lines.length ≤ pos := by omega
      rw [readAllFrom]
      simp [readNextLineNB, Nat.not_lt.mpr hge, List.drop_eq_nil_of_le hge]

/-- Claim C8: `ReadAllLines` walks a fresh reader from position 0 with
non-blocking reads and returns every line stored in the log, in append
order, nothing added, lost, duplicated or reordered; the server's
`GetOutput` is their concatenation. -/
theorem readAllLines_exact (lines : List String) :
    ReadAllLines lines = lines ∧ GetOutput lines = String.join lines := by
  have h := readAllFrom_eq lines lines.length 0 (by omega)
  rw [List.drop_zero] at h
  exact ⟨h, by simp [GetOutput, ReadAllLines, h]⟩

/-! ### The job registry -/

/-- Folding registrations over a store: lookup misses exactly when the
id missed the initial store and is not among the registered ids. -/
theorem foldl_register_none (regs : List (String × Job)) :
    ∀ (jobs : String → Option Job) (id : String),
      (regs.foldl (fun jobs e => register jobs e.1 e.2) jobs) id = none ↔
        (jobs id = none ∧ id ∉ regs.map Prod.fst) := by
  induction regs with
  | nil =>
    intro jobs id
    simp
  | cons e regs ih =>
    intro jobs id
    simp only [List.foldl_cons, List.map_cons, List.mem_cons]
    rw [ih]
    by_cases hid : id = e.1 <;> simp [register, hid]

/-- `GetJob` reports the not-found error exactly when the map lookup
misses. -/
theorem getJob_error_iff (jobs : String → Option Job) (id : String) :
    GetJob jobs id = Except.error LookupErr.notFoundError ↔ jobs id = none := by
  cases h : jobs id <;> simp [GetJob, h]

/-- Claim C9: starting from the empty registry, `Lookup` fails with
the not-found error exactly on identifiers never registered; looking
up an identifier just registered returns exactly the job stored under
it, and registering one identifier leaves every lookup under any other
identifier unchanged (and a lookup itself is a pure read of the map,
mutating nothing).  Freshness of the generated identifier itself comes
from `uuid.New()`, which the embedding takes as given. -/
theorem registry_lookup (regs : List (String × Job)) (id : String)
    (j : Job) (jobs : String → Option Job) :
    (GetJob (buildJobStore regs) id = Except.error LookupErr.notFoundError ↔
        id ∉ regs.map Prod.fst) ∧
    (GetJob (register jobs id j) id = Except.ok j) ∧
    (∀ k, k ≠ id → GetJob (register jobs id j) k = GetJob jobs k) := by
  refine ⟨?_, ?_, ?_⟩
  · rw [getJob_error_iff, buildJobStore, foldl_register_none]
    simp [emptyJobStore]
  · simp [GetJob, register]
  · intro k hk
    simp [GetJob, register, hk]

/-- Witness for C9 at a one-entry registry. -/
theorem registry_lookup_witness :
    GetJob (buildJobStore [("a", Job.mk JobStatus.running [])]) "b" =
      Except.error LookupErr.notFoundError ∧
    GetJob (register emptyJobStore "a" (Job.mk JobStatus.running [])) "a" =
      Except.ok (Job.mk JobStatus.running []) :=
  ⟨(registry_lookup [("a", Job.mk JobStatus.running [])] "b"
      (Job.mk JobStatus.running []) emptyJobStore).1.mpr (by simp),
   (registry_lookup [] "a" (Job.mk JobStatus.running []) emptyJobStore).2.1⟩

/-! ### The append-only log under interleaved operations -/

/-- No single operation rewrites history: the log before any operation
is a prefix of the log after it. -/
theorem applyOp_lines (σ : SysState) (op : Op) :
    σ.lines <+: (applyOp σ op).1.lines := by
  cases op with
  | appendLine s => exact List.prefix_append σ.lines [s]
  | newLogReader => exact List.prefix_rfl
  | readNextLineOp c =>
    cases hc : σ.cursors[c]? with
    | none =>
      simp only [applyOp, hc]
      exact List.prefix_rfl
    | some pos =>
      simp only [applyOp, hc]
      exact List.prefix_rfl

/-- Runs only extend the log: the starting log is a prefix of the
final one. -/
theorem run_lines_extend (ops : List Op) :
    ∀ σ : SysState, σ.lines <+: (run σ ops).1.lines := by
  induction ops with
  | nil =>
    intro σ
    exact List.prefix_rfl
  | cons op ops ih =>
    intro σ
    exact (applyOp_lines σ op).trans (ih (applyOp σ op).1)

/-- Claim C5: `AppendLine` adds exactly one entry at the end, and over
any interleaving of appends and reads the log only grows: the initial
log is a prefix of the final log (so a value written at index `i`
never changes — taking the first `initial length` entries of the final
log gives back the initial log unchanged) and its length never
decreases. -/
theorem log_append_only (lines : List String) (s : String)
    (σ : SysState) (ops : List Op) :
    AppendLine lines s = lines ++ [s] ∧
    σ.lines <+: (run σ ops).1.lines ∧
    σ.lines.length ≤ (run σ ops).1.lines.length ∧
    (run σ ops).1.lines.take σ.lines.length = σ.lines := by
  refine ⟨rfl, run_lines_extend ops σ, (run_lines_extend ops σ).length_le, ?_⟩
  obtain ⟨t, ht⟩ := run_lines_extend ops σ
  rw [← ht, List.take_left]

/-- Every cursor position stays within the log's length across one
operation. -/
theorem applyOp_good (σ : SysState) (op : Op)
    (h : ∀ p ∈ σ.cursors, p ≤ σ.lines.length) :
    ∀ p ∈ (applyOp σ op).1.cursors, p ≤ (applyOp σ op).1.lines.length := by
  cases op with
  | appendLine s =>
    intro p hp
    simp only [applyOp] at hp ⊢
    have := h p hp
    simp [AppendLine]
    omega
  | newLogReader =>
    intro p hp
    simp only [applyOp] at hp ⊢
    rcases List.mem_append.mp hp with h1 | h1
    · exact h p h1
    · simp only [List.mem_singleton] at h1
      omega
  | readNextLineOp c =>
    cases hc : σ.cursors[c]? with
    | none =>
      simpa only [applyOp, hc] using h
    | some pos =>
      intro p hp
      simp only [applyOp, hc] at hp ⊢
      rcases List.mem_or_eq_of_mem_set hp with h1 | h1
      · exact h p h1
      · subst h1
        by_cases hl : pos < σ.lines.length
        · simp [readNextLineNB, hl]
          omega
        · simp only [readNextLineNB, dif_neg hl]
          obtain ⟨hlt, heq⟩ := List.getElem?_eq_some.mp hc
          have := h (σ.cursors[c]) (List.getElem_mem hlt)
          omega

/-- Every cursor position stays within the log's length across a whole
run. -/
theorem run_good (ops : List Op) :
    ∀ σ : SysState, (∀ p ∈ σ.cursors, p ≤ σ.lines.length) →
      ∀ p ∈ (run σ ops).1.cursors, p ≤ (run σ ops).1.lines.length := by
  induction ops with
  | nil =>
    intro σ h
    simpa only [run] using h
  | cons op ops ih =>
    intro σ h
    simpa only [run] using ih (applyOp σ op).1 (applyOp_good σ op h)

theorem readsOf_nil (c : Nat) : readsOf c [] = [] := rfl

theorem readsOf_cons_hit (c : Nat) (s : String)
    (evs : List (Nat × String × Bool)) :
    readsOf c ((c, s, true) :: evs) = s :: readsOf c evs := by
  simp [readsOf, List.filter_cons]

theorem readsOf_cons_miss (c c' : Nat) (s : String) (b : Bool)
    (evs : List (Nat × String × Bool)) (h : (c' == c && b) = false) :
    readsOf c ((c', s, b) :: evs) = readsOf c evs := by
  simp [readsOf, List.filter_cons, h]

theorem toList_cons_append (a : Nat × String × Bool)
    (l : List (Nat × String × Bool)) : (some a).toList ++ l = a :: l := rfl

theorem toList_none_append (l : List (Nat × String × Bool)) :
    (none : Option (Nat × String × Bool)).toList ++ l = l := rfl

/-- The master bookkeeping invariant of a run: for every reader alive
at the end, its final position bounds its starting one and the lines
it read during the run are exactly the final log's entries between its
starting and final positions, in order; a reader not yet created at
the start read exactly the final log's first `final position`
entries. -/
theorem run_reads (ops : List Op) :
    ∀ (σ : SysState),
      (∀ p ∈ σ.cursors, p ≤ σ.lines.length) →
      ∀ (c pos1 : Nat), ((run σ ops).1).cursors[c]? = some pos1 →
        (∀ pos0, σ.cursors[c]? = some pos0 →
            pos0 ≤ pos1 ∧
            readsOf c (run σ ops).2 =
              (((run σ ops).1).lines.take pos1).drop pos0) ∧
        (σ.cursors[c]? = none →
            readsOf c (run σ ops).2 = ((run σ ops).1).lines.take pos1) := by
  induction ops with
  | nil =>
    intro σ hgood c pos1 h1
    simp only [run] at h1 ⊢
    constructor
    · intro pos0 h0
      rw [h0] at h1
      injection h1 with h1
      subst h1
      refine ⟨le_refl pos0, ?_⟩
      rw [readsOf_nil]
      symm
      apply List.drop_eq_nil_of_le
      rw [List.length_take]
      omega
    · intro h0
      rw [h0] at h1
      cases h1
  | cons op ops ih =>
    intro σ hgood c pos1 h1
    simp only [run] at h1 ⊢
    have IH := ih (applyOp σ op).1 (applyOp_good σ op hgood) c pos1 h1
    cases op with
    | appendLine s =>
      exact IH
    | newLogReader =>
      refine ⟨fun pos0 h0 => ?_, fun h0 => ?_⟩
      · have hc : c < σ.cursors.length := by
          by_contra hge
          rw [List.getElem?_eq_none (by omega)] at h0
          cases h0
        have h0' : ((applyOp σ Op.newLogReader).1).cursors[c]? = some pos0 := by
          show (σ.cursors ++ [0])[c]? = some pos0
          rw [List.getElem?_append_left hc]
          exact h0
        exact IH.1 pos0 h0'
      · have hge : σ.cursors.length ≤ c := List.getElem?_eq_none_iff.mp h0
        by_cases hceq : c = σ.cursors.length
        · have h0' : ((applyOp σ Op.newLogReader).1).cursors[c]? = some 0 := by
            show (σ.cursors ++ [0])[c]? = some 0
            rw [hceq]
            exact List.getElem?_concat_length _ _
          have h2 := IH.1 0 h0'
          rw [List.drop_zero] at h2
          exact h2.2
        · have h0' : ((applyOp σ Op.newLogReader).1).cursors[c]? = none := by
            show (σ.cursors ++ [0])[c]? = none
            rw [List.getElem?_append_right hge]
            exact List.getElem?_eq_none (by simp; omega)
          exact IH.2 h0'
    | readNextLineOp c' =>
      cases hc' : σ.cursors[c']? with
      | none =>
        have e : applyOp σ (Op.readNextLineOp c') = (σ, none) := by
          simp [applyOp, hc']
        rw [e] at IH ⊢
        exact IH
      | some pos =>
        have e : applyOp σ (Op.readNextLineOp c') =
            ({ σ with
                cursors := σ.cursors.set c' (readNextLineNB σ.lines pos).2.2 },
             some (c', (readNextLineNB σ.lines pos).1,
                   (readNextLineNB σ.lines pos).2.1)) := by
          simp [applyOp, hc']
        rw [e] at IH ⊢
        by_cases hcc : c = c'
        · subst hcc
          have hclen : c < σ.cursors.length := (List.getElem?_eq_some.mp hc').1
          refine ⟨fun pos0 h0 => ?_, fun h0 => ?_⟩
          · rw [hc'] at h0
            injection h0 with h0
            subst h0
            have hset :
                (σ.cursors.set c ((readNextLineNB σ.lines pos).2.2))[c]? =
                  some ((readNextLineNB σ.lines pos).2.2) :=
              List.getElem?_set_self hclen
            have IH1 := IH.1 ((readNextLineNB σ.lines pos).2.2) hset
            by_cases hl : pos < σ.lines.length
            · have hr1 : (readNextLineNB σ.lines pos).1 =
                  σ.lines.get ⟨pos, hl⟩ := by
                simp [readNextLineNB, hl]
              have hr21 : (readNextLineNB σ.lines pos).2.1 = true := by
                simp [readNextLineNB, hl]
              have hr22 : (readNextLineNB σ.lines pos).2.2 = pos + 1 := by
                simp [readNextLineNB, hl]
              rw [hr22] at IH1
              obtain ⟨hle, hreads⟩ := IH1
              refine ⟨by omega, ?_⟩
              rw [toList_cons_append, hr1, hr21, hr22, readsOf_cons_hit, hreads]
              have hpre : σ.lines <+:
                  (run ({ σ with cursors := σ.cursors.set c (pos + 1) })
                    ops).1.lines :=
                run_lines_extend ops { σ with cursors := σ.cursors.set c (pos + 1) }
              have hlenf : pos <
                  (run ({ σ with cursors := σ.cursors.set c (pos + 1) })
                    ops).1.lines.length :=
                lt_of_lt_of_le hl hpre.length_le
              have htk : pos <
                  ((run ({ σ with cursors := σ.cursors.set c (pos + 1) })
                    ops).1.lines.take pos1).length := by
                rw [List.length_take]
                omega
              rw [List.drop_eq_getElem_cons htk]
              congr 1
              rw [List.getElem_take]
              exact hpre.getElem hl
            · have hr1 : (readNextLineNB σ.lines pos).1 = "" := by
                simp [readNextLineNB, hl]
              have hr21 : (readNextLineNB σ.lines pos).2.1 = false := by
                simp [readNextLineNB, hl]
              have hr22 : (readNextLineNB σ.lines pos).2.2 = pos := by
                simp [readNextLineNB, hl]
              rw [hr22] at IH1
              obtain ⟨hle, hreads⟩ := IH1
              refine ⟨hle, ?_⟩
              rw [toList_cons_append, hr1, hr21, hr22,
                readsOf_cons_miss c c "" false _ (by simp), hreads]
          · rw [hc'] at h0
            cases h0
        · refine ⟨fun pos0 h0 => ?_, fun h0 => ?_⟩
          · have h0' :
                (σ.cursors.set c' ((readNextLineNB σ.lines pos).2.2))[c]? =
                  some pos0 := by
              rw [List.getElem?_set_ne (by omega : c' ≠ c)]
              exact h0
            obtain ⟨hle, hreads⟩ := IH.1 pos0 h0'
            refine ⟨hle, ?_⟩
            rw [toList_cons_append,
              readsOf_cons_miss c c' _ _ _ (by simp [Ne.symm hcc]), hreads]
          · have h0' :
                (σ.cursors.set c' ((readNextLineNB σ.lines pos).2.2))[c]? =
                  none := by
              rw [List.getElem?_set_ne (by omega : c' ≠ c)]
              exact h0
            have hreads := IH.2 h0'
            rw [toList_cons_append,
              readsOf_cons_miss c c' _ _ _ (by simp [Ne.symm hcc]), hreads]

/-- Claim C6: start a log with no readers and run any interleaving of
appends, reader creations and reads.  Every reader alive at the end
(each was created by `NewLogReader`, hence started at position 0) has
read exactly the first `position` entries of the final log, so any two
readers' read sequences are prefixes of the log's line sequence and of
one another; positions never exceed the log's length; moreover
`NewLogReader` appends a cursor at position 0, a read never mutates
the log, and a read through one cursor leaves every other cursor's
position untouched. -/
theorem cursors_independent (L : List String) (ops : List Op)
    (i j pi pj : Nat)
    (hi : ((run (SysState.mk L []) ops).1).cursors[i]? = some pi)
    (hj : ((run (SysState.mk L []) ops).1).cursors[j]? = some pj) :
    pi ≤ ((run (SysState.mk L []) ops).1).lines.length ∧
    pj ≤ ((run (SysState.mk L []) ops).1).lines.length ∧
    readsOf i (run (SysState.mk L []) ops).2 =
      ((run (SysState.mk L []) ops).1).lines.take pi ∧
    readsOf j (run (SysState.mk L []) ops).2 =
      ((run (SysState.mk L []) ops).1).lines.take pj ∧
    readsOf i (run (SysState.mk L []) ops).2 <+:
      ((run (SysState.mk L []) ops).1).lines ∧
    readsOf j (run (SysState.mk L []) ops).2 <+:
      ((run (SysState.mk L []) ops).1).lines ∧
    (readsOf i (run (SysState.mk L []) ops).2 <+:
        readsOf j (run (SysState.mk L []) ops).2 ∨
      readsOf j (run (SysState.mk L []) ops).2 <+:
        readsOf i (run (SysState.mk L []) ops).2) ∧
    (∀ σ : SysState, (applyOp σ Op.newLogReader).1.cursors = σ.cursors ++ [0]) ∧
    (∀ (σ : SysState) (c : Nat),
        (applyOp σ (Op.readNextLineOp c)).1.lines = σ.lines) ∧
    (∀ (σ : SysState) (c c' : Nat), c' ≠ c →
        (applyOp σ (Op.readNextLineOp c)).1.cursors[c']? = σ.cursors[c']?) := by
  have hgood0 : ∀ p ∈ (SysState.mk L []).cursors,
      p ≤ (SysState.mk L []).lines.length := by
    intro p hp
    simp at hp
  have hri := (run_reads ops (SysState.mk L []) hgood0 i pi hi).2 (by simp)
  have hrj := (run_reads ops (SysState.mk L []) hgood0 j pj hj).2 (by simp)
  have hgi : pi ≤ ((run (SysState.mk L []) ops).1).lines.length := by
    obtain ⟨hlt, heq⟩ := List.getElem?_eq_some.mp hi
    have hm := run_good ops (SysState.mk L []) hgood0 _ (List.getElem_mem hlt)
    rw [heq] at hm
    exact hm
  have hgj : pj ≤ ((run (SysState.mk L []) ops).1).lines.length := by
    obtain ⟨hlt, heq⟩ := List.getElem?_eq_some.mp hj
    have hm := run_good ops (SysState.mk L []) hgood0 _ (List.getElem_mem hlt)
    rw [heq] at hm
    exact hm
  have hcomp : ∀ (m n : Nat) (l : List String), m ≤ n →
      l.take m <+: l.take n := by
    intro m n l hmn
    have h1 := List.take_prefix m (l.take n)
    rwa [List.take_take, Nat.min_eq_left hmn] at h1
  refine ⟨hgi, hgj, hri, hrj, ?_, ?_, ?_, ?_, ?_, ?_⟩
  · rw [hri]
    exact List.take_prefix _ _
  · rw [hrj]
    exact List.take_prefix _ _
  · rw [hri, hrj]
    rcases Nat.le_total pi pj with h | h
    · exact Or.inl (hcomp pi pj _ h)
    · exact Or.inr (hcomp pj pi _ h)
  · intro σ
    rfl
  · intro σ c
    cases hc : σ.cursors[c]? <;> simp [applyOp, hc]
  · intro σ c c' hne
    cases hc : σ.cursors[c]? with
    | none => simp [applyOp, hc]
    | some pos => simp [applyOp, hc, List.getElem?_set_ne (Ne.symm hne)]

/-- Witness for C6: a concrete run with two readers, one of which has
read the one appended line. -/
theorem cursors_independent_witness :
    (1 : Nat) ≤ ((run (SysState.mk ["a"] [])
        [Op.newLogReader, Op.newLogReader, Op.readNextLineOp 0]).1).lines.length :=
  (cursors_independent ["a"]
      [Op.newLogReader, Op.newLogReader, Op.readNextLineOp 0]
      0 1 1 0 rfl rfl).1

/-- Setting a list entry to the value it already holds changes
nothing. -/
theorem set_getElem_id (l : List Nat) (c pos : Nat) (h : l[c]? = some pos) :
    l.set c pos = l := by
  apply List.ext_getElem?
  intro n
  by_cases hn : n = c
  · subst hn
    rw [List.getElem?_set_self (List.getElem?_eq_some.mp h).1]
    exact h.symm
  · rw [List.getElem?_set_ne (fun hcn => hn hcn.symm)]

/-- The first part of `failed_read_frame`: a `ReadNextLine` call that
returns `ok = false` reports an empty line and an unchanged
position. -/
theorem readNextLine_false_frame (blocking : Bool)
    (trace : Nat → List String) (fuel : Nat) :
    ∀ (t pos : Nat) (line : String) (pos' : Nat),
      ReadNextLine blocking trace fuel t pos = some (line, false, pos') →
      line = "" ∧ pos' = pos := by
  induction fuel with
  | zero =>
    intro t pos line pos' h
    rw [ReadNextLine.eq_def] at h
    by_cases hb : blocking = false ∨ pos < (trace t).length
    · rw [if_pos hb] at h
      by_cases hlt : pos < (trace t).length
      · rw [dif_pos hlt] at h
        simp at h
      · rw [dif_neg hlt] at h
        simp at h
        exact ⟨h.1.symm, h.2.symm⟩
    · rw [if_neg hb] at h
      exact Option.noConfusion h
  | succ fuel ih =>
    intro t pos line pos' h
    rw [ReadNextLine.eq_def] at h
    by_cases hb : blocking = false ∨ pos < (trace t).length
    · rw [if_pos hb] at h
      by_cases hlt : pos < (trace t).length
      · rw [dif_pos hlt] at h
        simp at h
      · rw [dif_neg hlt] at h
        simp at h
        exact ⟨h.1.symm, h.2.symm⟩
    · rw [if_neg hb] at h
      exact ih (t + 1) pos line pos' h

/-- Claim C10: an unsuccessful read (`ok = false`) has no effect: the
call reports an empty line and returns the cursor's position exactly
as it was, and in the operations model the entire state — the reader's
`CurrentPosition` and the log's line sequence — is exactly what it was
before the call. -/
theorem failed_read_frame :
    (∀ (blocking : Bool) (trace : Nat → List String) (fuel t pos : Nat)
        (line : String) (pos' : Nat),
        ReadNextLine blocking trace fuel t pos = some (line, false, pos') →
        line = "" ∧ pos' = pos) ∧
    (∀ (σ : SysState) (c : Nat) (line : String),
        (applyOp σ (Op.readNextLineOp c)).2 = some (c, line, false) →
        (applyOp σ (Op.readNextLineOp c)).1 = σ) := by
  constructor
  · intro blocking trace fuel t pos line pos' h
    exact readNextLine_false_frame blocking trace fuel t pos line pos' h
  · intro σ c line h
    cases hc : σ.cursors[c]? with
    | none =>
      simp [applyOp, hc] at h
    | some pos =>
      have e : applyOp σ (Op.readNextLineOp c) =
          ({ σ with
              cursors := σ.cursors.set c (readNextLineNB σ.lines pos).2.2 },
           some (c, (readNextLineNB σ.lines pos).1,
                 (readNextLineNB σ.lines pos).2.1)) := by
        simp [applyOp, hc]
      rw [e] at h ⊢
      by_cases hl : pos < σ.lines.length
      · simp [readNextLineNB, hl] at h
      · have hr22 : (readNextLineNB σ.lines pos).2.2 = pos := by
          simp [readNextLineNB, hl]
        show ({ σ with
            cursors := σ.cursors.set c (readNextLineNB σ.lines pos).2.2 } :
              SysState) = σ
        rw [hr22, set_getElem_id σ.cursors c pos hc]

/-- Witness for C10: a failed read leaves the concrete state
unchanged. -/
theorem failed_read_frame_witness :
    (applyOp (SysState.mk ["a"] [1]) (Op.readNextLineOp 0)).1 =
      SysState.mk ["a"] [1] :=
  failed_read_frame.2 (SysState.mk ["a"] [1]) 0 "" rfl

end JobWorker
